import Mathlib

/-!
Verification of `src/05-objects-tasks.js`: the CSS selector `Builder` class with
its `cssSelectorBuilder` facade, and the JSON helpers `getJSON` / `fromJSON`.

The JavaScript code is shallowly embedded: each `Builder` method becomes a pure
function from the receiver's state to the pair of the post-call state and an
optional raised error.  A method that throws performs all of its checks before
any assignment to `this`, so on the error path the returned state is the
receiver unchanged, exactly as in the source.
-/

/-- The two error kinds thrown by `Builder` methods.  In the source both are
`Error` values distinguished only by their message (`numberError` for
duplicates, `consistenceError` for ordering violations). -/
inductive BuilderError where
  | duplicate : BuilderError
  | order : BuilderError
deriving DecidableEq, Repr

/-- The exact message strings stored by the constructor
(`this.numberError`, `this.consistenceError`). -/
def BuilderError.message : BuilderError → String
  | .duplicate => "Element, id and pseudo-element should not occur more then one time inside the selector"
  | .order => "Selector parts should be arranged in the following order: element, id, class, attribute, pseudo-class, pseudo-element"

/-- State of a `Builder` instance.  The constructor assigns
`selectorString`, `hasElement`, `hasId`, `hasClass`, `hasAttribute`,
`hasPseudoClass`, `hasPseudoElement`.  The methods `element`/`id` consult and
assign the differently-capitalised property `hasID`, which the constructor
never initialises; in JavaScript reading it before the first assignment
yields `undefined`, which is falsy, so it is modelled as a `Bool` starting at
`false`. -/
structure Builder where
  selectorString : String
  hasElement : Bool
  hasId : Bool
  hasID : Bool
  hasClass : Bool
  hasAttribute : Bool
  hasPseudoClass : Bool
  hasPseudoElement : Bool
deriving DecidableEq, Repr

/-- `new Builder()`. -/
def Builder.new : Builder :=
  { selectorString := ""
    hasElement := false
    hasId := false
    hasID := false
    hasClass := false
    hasAttribute := false
    hasPseudoClass := false
    hasPseudoElement := false }

/-- `Builder.prototype.element`.  Checks `hasElement` (duplicate), then the
later-category flags (order), then appends `value` and sets `hasElement`. -/
def Builder.element (b : Builder) (value : String) : Builder × Option BuilderError :=
  if b.hasElement then (b, some .duplicate)
  else if b.hasID || b.hasClass || b.hasAttribute || b.hasPseudoClass || b.hasPseudoElement then
    (b, some .order)
  else ({ b with selectorString := b.selectorString ++ value, hasElement := true }, none)

/-- `Builder.prototype.id`.  Checks `hasID` (duplicate), then the
later-category flags (order), then appends `"#" + value` and sets `hasID`. -/
def Builder.id (b : Builder) (value : String) : Builder × Option BuilderError :=
  if b.hasID then (b, some .duplicate)
  else if b.hasClass || b.hasAttribute || b.hasPseudoClass || b.hasPseudoElement then
    (b, some .order)
  else ({ b with selectorString := b.selectorString ++ "#" ++ value, hasID := true }, none)

/-- `Builder.prototype.pseudoElement`.  Checks only `hasPseudoElement`
(duplicate), then appends `"::" + value` and sets the flag. -/
def Builder.pseudoElement (b : Builder) (value : String) : Builder × Option BuilderError :=
  if b.hasPseudoElement then (b, some .duplicate)
  else ({ b with selectorString := b.selectorString ++ "::" ++ value, hasPseudoElement := true }, none)

/-- `Builder.prototype.class`.  Checks the later-category flags (order), then
appends `"." + value` and sets `hasClass`.  (`class` is a reserved word in
Lean, hence the quoted name.) -/
def Builder.«class» (b : Builder) (value : String) : Builder × Option BuilderError :=
  if b.hasAttribute || b.hasPseudoClass || b.hasPseudoElement then (b, some .order)
  else ({ b with selectorString := b.selectorString ++ "." ++ value, hasClass := true }, none)

/-- `Builder.prototype.attr`.  Checks the later-category flags (order), then
appends `"[" + value + "]"` and sets `hasAttribute`. -/
def Builder.attr (b : Builder) (value : String) : Builder × Option BuilderError :=
  if b.hasPseudoClass || b.hasPseudoElement then (b, some .order)
  else ({ b with selectorString := b.selectorString ++ "[" ++ value ++ "]", hasAttribute := true }, none)

/-- `Builder.prototype.pseudoClass`.  Checks `hasPseudoElement` (order), then
appends `":" + value` and sets `hasPseudoClass`. -/
def Builder.pseudoClass (b : Builder) (value : String) : Builder × Option BuilderError :=
  if b.hasPseudoElement then (b, some .order)
  else ({ b with selectorString := b.selectorString ++ ":" ++ value, hasPseudoClass := true }, none)

/-- `Builder.prototype.combine`.  Appends
`selector1.selectorString + " " + combinator + " " + selector2.selectorString`
to the receiver's buffer.  It reads the arguments' `selectorString` fields
directly (it does not call their `stringify`) and never throws. -/
def Builder.combine (b : Builder) (selector1 : Builder) (combinator : String)
    (selector2 : Builder) : Builder :=
  { b with selectorString :=
      b.selectorString ++ selector1.selectorString ++ " " ++ combinator ++ " "
        ++ selector2.selectorString }

/-- `Builder.prototype.stringify`.  Returns the accumulated text and resets
the receiver's buffer to the empty string. -/
def Builder.stringify (b : Builder) : String × Builder :=
  (b.selectorString, { b with selectorString := "" })

/-- Facade `cssSelectorBuilder.element`: a fresh `Builder`, then `element`. -/
def cssSelectorBuilder.element (value : String) : Builder × Option BuilderError :=
  Builder.new.element value

/-- Facade `cssSelectorBuilder.id`. -/
def cssSelectorBuilder.id (value : String) : Builder × Option BuilderError :=
  Builder.new.id value

/-- Facade `cssSelectorBuilder.class`. -/
def cssSelectorBuilder.«class» (value : String) : Builder × Option BuilderError :=
  Builder.new.«class» value

/-- Facade `cssSelectorBuilder.attr`. -/
def cssSelectorBuilder.attr (value : String) : Builder × Option BuilderError :=
  Builder.new.attr value

/-- Facade `cssSelectorBuilder.pseudoClass`. -/
def cssSelectorBuilder.pseudoClass (value : String) : Builder × Option BuilderError :=
  Builder.new.pseudoClass value

/-- Facade `cssSelectorBuilder.pseudoElement`. -/
def cssSelectorBuilder.pseudoElement (value : String) : Builder × Option BuilderError :=
  Builder.new.pseudoElement value

/-- Facade `cssSelectorBuilder.combine`: a fresh `Builder`, then `combine`. -/
def cssSelectorBuilder.combine (selector1 : Builder) (combinator : String)
    (selector2 : Builder) : Builder :=
  Builder.new.combine selector1 combinator selector2

/-- The six selector fragment categories, in grammar order. -/
inductive Category where
  | element : Category
  | id : Category
  | «class» : Category
  | attribute : Category
  | pseudoClass : Category
  | pseudoElement : Category
deriving DecidableEq, Repr

/-- Position of a category in the order
`element < id < class < attribute < pseudoClass < pseudoElement`. -/
def Category.index : Category → Nat
  | .element => 0
  | .id => 1
  | .«class» => 2
  | .attribute => 3
  | .pseudoClass => 4
  | .pseudoElement => 5

/-- The at-most-one categories: `element`, `id`, `pseudoElement`. -/
def Category.atMostOne : Category → Bool
  | .element => true
  | .id => true
  | .pseudoElement => true
  | _ => false

/-- Dispatch an append of category `c` to the corresponding `Builder` method. -/
def Builder.append (b : Builder) (c : Category) (v : String) : Builder × Option BuilderError :=
  match c with
  | .element => b.element v
  | .id => b.id v
  | .«class» => b.«class» v
  | .attribute => b.attr v
  | .pseudoClass => b.pseudoClass v
  | .pseudoElement => b.pseudoElement v

/-- Run a sequence of appends; stop at the first raised error. -/
def runBuilder (b : Builder) : List (Category × String) → Builder × Option BuilderError
  | [] => (b, none)
  | (c, v) :: rest =>
    match b.append c v with
    | (b1, none) => runBuilder b1 rest
    | (b1, some e) => (b1, some e)

/-- Literal rendering of one fragment, as appended by the `Builder` methods. -/
def Category.render : Category → String → String
  | .element, v => v
  | .id, v => "#" ++ v
  | .«class», v => "." ++ v
  | .attribute, v => "[" ++ v ++ "]"
  | .pseudoClass, v => ":" ++ v
  | .pseudoElement, v => "::" ++ v

/-- Concatenation, in append order and with no separators, of the literal
renderings of a sequence of fragments. -/
def renderAll (ops : List (Category × String)) : String :=
  ops.foldr (fun p acc => Category.render p.1 p.2 ++ acc) ""

/-- Which flag of `b` records that a fragment of category `c` was appended. -/
def catSeen (b : Builder) : Category → Bool
  | .element => b.hasElement
  | .id => b.hasID
  | .«class» => b.hasClass
  | .attribute => b.hasAttribute
  | .pseudoClass => b.hasPseudoClass
  | .pseudoElement => b.hasPseudoElement

/-- All six categories. -/
def allCategories : List Category :=
  [.element, .id, .«class», .attribute, .pseudoClass, .pseudoElement]

/-- `true` iff some category strictly later than `c` has already been appended
to `b`, according to `b`'s flags. -/
def laterSeen (b : Builder) (c : Category) : Bool :=
  allCategories.any fun d => decide (c.index < d.index) && catSeen b d

/-- Modelled from the spec: the watermark state machine of §4.3.  State is the
highest category index appended so far plus seen flags for the at-most-one
categories. -/
structure SpecState where
  watermark : Nat
  seenElement : Bool
  seenId : Bool
  seenPseudoElement : Bool
deriving DecidableEq, Repr

/-- Modelled from the spec: the initial watermark state. -/
def SpecState.init : SpecState :=
  { watermark := 0, seenElement := false, seenId := false, seenPseudoElement := false }

/-- Modelled from the spec: the seen flag of an at-most-one category
(`false` for the repeatable categories). -/
def SpecState.seen (s : SpecState) : Category → Bool
  | .element => s.seenElement
  | .id => s.seenId
  | .pseudoElement => s.seenPseudoElement
  | _ => false

/-- Modelled from the spec: appending category `c` is legal iff
`c.index ≥ watermark` and, for an at-most-one category, its seen flag is not
set; on success the watermark advances to `max watermark c.index` and the
seen flag (if any) is set. -/
def specStep (s : SpecState) (c : Category) : Option SpecState :=
  if c.index < s.watermark then none
  else if c.atMostOne && s.seen c then none
  else some
    { watermark := max s.watermark c.index
      seenElement := s.seenElement || (c == .element)
      seenId := s.seenId || (c == .id)
      seenPseudoElement := s.seenPseudoElement || (c == .pseudoElement) }

/-- Modelled from the spec: run the watermark machine over a category word. -/
def runSpec (s : SpecState) : List Category → Option SpecState
  | [] => some s
  | c :: rest =>
    match specStep s c with
    | none => none
    | some s1 => runSpec s1 rest

/-- The watermark determined by `b`'s flags: the index of the highest
category whose flag is set (`0` when only `element`, or nothing, is set). -/
def flagWatermark (b : Builder) : Nat :=
  if b.hasPseudoElement then 5
  else if b.hasPseudoClass then 4
  else if b.hasAttribute then 3
  else if b.hasClass then 2
  else if b.hasID then 1
  else 0

/-- Abstraction of a flag-based `Builder` state to a watermark spec state. -/
def absState (b : Builder) : SpecState :=
  { watermark := flagWatermark b
    seenElement := b.hasElement
    seenId := b.hasID
    seenPseudoElement := b.hasPseudoElement }

/-!
A small store model for the aliasing claim about `combine`: builder instances
live in a store (a list of `Builder` states) and are designated by indices.
`cssSelectorBuilder.combine` allocates a fresh instance and mutates only that
fresh cell, reading `selectorString` from its two argument cells; a method
call `stringify()` on cell `i` mutates only cell `i`.
-/

/-- `cssSelectorBuilder.combine` on store cells `i` and `j`: allocate a fresh
`Builder`, run `combine` on it reading the two argument cells, and return the
new store with the fresh cell's index. -/
def combineAt (store : List Builder) (i : Nat) (combinator : String) (j : Nat) :
    List Builder × Nat :=
  (store ++ [Builder.new.combine (store.getD i Builder.new) combinator (store.getD j Builder.new)],
   store.length)

/-- A `stringify()` call on the builder in store cell `i`: returns its
accumulated text and writes back the builder with a cleared buffer. -/
def stringifyAt (store : List Builder) (i : Nat) : String × List Builder :=
  ((store.getD i Builder.new).selectorString,
   store.set i { store.getD i Builder.new with selectorString := "" })

/-!
The JSON bridge.  `getJSON(obj)` is `JSON.stringify(obj)` and
`fromJSON(proto, json)` is `Object.setPrototypeOf(JSON.parse(json), proto)`.
The native `JSON.stringify` / `JSON.parse` are embedded as an executable
encoder and recursive-descent parser over a JSON value type (numbers are
restricted to integers, the only numbers the claims exercise; Lean strings
range over Unicode scalar values).  A parsed value with an attached prototype
is modelled as the pair of the value and the prototype's property list, with
property lookup trying own fields before prototype fields, as JavaScript
property resolution does.
-/

/-- JSON values (numbers restricted to integers). -/
inductive Json where
  | null : Json
  | bool (b : Bool) : Json
  | num (n : Int) : Json
  | str (s : String) : Json
  | arr (elems : List Json) : Json
  | obj (fields : List (String × Json)) : Json

/-- Decimal digits of `n`, most significant first (recursive specification). -/
def natDigitsWF (n : Nat) : List Char :=
  if h : n < 10 then [Char.ofNat (48 + n)]
  else natDigitsWF (n / 10) ++ [Char.ofNat (48 + n % 10)]
decreasing_by omega

/-- Accumulator worker for `natDigits`; the structural fuel is at least the
number itself, so the fuel-exhausted branch is unreachable. -/
def natDigitsGo : Nat → Nat → List Char → List Char
  | 0, n, acc => Char.ofNat (48 + n) :: acc
  | fuel + 1, n, acc =>
    if n < 10 then Char.ofNat (48 + n) :: acc
    else natDigitsGo fuel (n / 10) (Char.ofNat (48 + n % 10) :: acc)

/-- Decimal digits of `n`, most significant first. -/
def natDigits (n : Nat) : List Char := natDigitsGo n n []

/-- Decimal rendering of an integer, as `JSON.stringify` prints integral
numbers. -/
def intChars (i : Int) : List Char :=
  if i < 0 then '-' :: natDigits i.natAbs else natDigits i.natAbs

/-- Lower-case hexadecimal digit. -/
def hexDigitChar (n : Nat) : Char :=
  if n < 10 then Char.ofNat (48 + n) else Char.ofNat (87 + n)

/-- How `JSON.stringify` escapes one string character: `"` and `\` get a
backslash escape, the named control characters use their short escapes, the
remaining control characters use `\u00XX`, and every other character stands
for itself. -/
def encodeChar (c : Char) : List Char :=
  if c = '"' then ['\\', '"']
  else if c = '\\' then ['\\', '\\']
  else if c = Char.ofNat 8 then ['\\', 'b']
  else if c = Char.ofNat 12 then ['\\', 'f']
  else if c = Char.ofNat 10 then ['\\', 'n']
  else if c = Char.ofNat 13 then ['\\', 'r']
  else if c = Char.ofNat 9 then ['\\', 't']
  else if c.toNat < 32 then
    ['\\', 'u', '0', '0', hexDigitChar (c.toNat / 16), hexDigitChar (c.toNat % 16)]
  else [c]

/-- The character list of a string literal. -/
def litChars (s : String) : List Char := s.data

/-- Escape a whole string body. -/
def encodeString : List Char → List Char
  | [] => []
  | c :: cs => encodeChar c ++ encodeString cs

mutual

/-- `JSON.stringify` rendering of a value (no whitespace). -/
def encode : Json → List Char
  | .null => litChars "null"
  | .bool true => litChars "true"
  | .bool false => litChars "false"
  | .num n => intChars n
  | .str s => '"' :: (encodeString s.data ++ ['"'])
  | .arr xs => '[' :: (encodeElems xs ++ [']'])
  | .obj fs => '\x7b' :: (encodeFields fs ++ ['\x7d'])

/-- Comma-separated array elements. -/
def encodeElems : List Json → List Char
  | [] => []
  | [x] => encode x
  | x :: y :: xs => encode x ++ ',' :: encodeElems (y :: xs)

/-- Comma-separated object members (each member is `"key":value`). -/
def encodeFields : List (String × Json) → List Char
  | [] => []
  | [(k, v)] => '"' :: (encodeString k.data ++ '"' :: ':' :: encode v)
  | (k, v) :: f :: fs =>
    ('"' :: (encodeString k.data ++ '"' :: ':' :: encode v)) ++ ',' :: encodeFields (f :: fs)

end

/-- One `"key":value` member. -/
def encodeField (k : String) (v : Json) : List Char :=
  '"' :: (encodeString k.data ++ '"' :: ':' :: encode v)

/-- `getJSON`: `JSON.stringify(obj)`. -/
def getJSON (obj : Json) : String :=
  String.mk (encode obj)

/-- Skip JSON whitespace. -/
def skipWs : List Char → List Char
  | [] => []
  | c :: cs => if c = ' ' || c = '\n' || c = '\r' || c = '\t' then skipWs cs else c :: cs

/-- Value of a hexadecimal digit character. -/
def parseHex (c : Char) : Option Nat :=
  if 48 ≤ c.toNat && c.toNat ≤ 57 then some (c.toNat - 48)
  else if 97 ≤ c.toNat && c.toNat ≤ 102 then some (c.toNat - 87)
  else if 65 ≤ c.toNat && c.toNat ≤ 70 then some (c.toNat - 55)
  else none

/-- Character denoted by a simple (non-`\u`) escape. -/
def escChar (e : Char) : Option Char :=
  if e = '"' then some '"'
  else if e = '\\' then some '\\'
  else if e = '/' then some '/'
  else if e = 'b' then some (Char.ofNat 8)
  else if e = 'f' then some (Char.ofNat 12)
  else if e = 'n' then some (Char.ofNat 10)
  else if e = 'r' then some (Char.ofNat 13)
  else if e = 't' then some (Char.ofNat 9)
  else none

/-- Parse a string body up to the closing quote, decoding escapes. -/
def parseStringBody : List Char → Except String (List Char × List Char)
  | [] => .error "Unterminated string in JSON"
  | c :: cs =>
    if c = '\\' then
      match cs with
      | [] => .error "Unterminated string in JSON"
      | e :: cs1 =>
        if e = 'u' then
          match cs1 with
          | h1 :: h2 :: h3 :: h4 :: cs2 =>
            match parseHex h1, parseHex h2, parseHex h3, parseHex h4 with
            | some a, some b, some c2, some d =>
              match parseStringBody cs2 with
              | .ok (s, rest) =>
                .ok (Char.ofNat (((a * 16 + b) * 16 + c2) * 16 + d) :: s, rest)
              | .error err => .error err
            | _, _, _, _ => .error "Bad Unicode escape in JSON"
          | _ => .error "Bad Unicode escape in JSON"
        else
          match escChar e with
          | some d =>
            match parseStringBody cs1 with
            | .ok (s, rest) => .ok (d :: s, rest)
            | .error err => .error err
          | none => .error "Bad escape in JSON"
    else if c = '"' then .ok ([], cs)
    else
      match parseStringBody cs with
      | .ok (s, rest) => .ok (c :: s, rest)
      | .error err => .error err

/-- Accumulate the leading run of decimal digits. -/
def parseNatAux : List Char → Nat → Nat × List Char
  | [], acc => (acc, [])
  | c :: cs, acc =>
    if c.isDigit then parseNatAux cs (acc * 10 + (c.toNat - 48)) else (acc, c :: cs)

mutual

/-- Recursive-descent JSON value parser (the embedding of `JSON.parse`).
`fuel` bounds the recursion; the top-level entry point supplies enough for
any input of its length. -/
def parseValue : Nat → List Char → Except String (Json × List Char)
  | 0, _ => .error "Maximum JSON nesting depth exceeded"
  | fuel + 1, input =>
    match skipWs input with
    | [] => .error "Unexpected end of JSON input"
    | c :: cs =>
      if c.isDigit then
        let p := parseNatAux (c :: cs) 0
        .ok (.num (p.1 : Int), p.2)
      else if c = '-' then
        match cs with
        | [] => .error "Unexpected end of JSON input"
        | d :: _ =>
          if d.isDigit then
            let p := parseNatAux cs 0
            .ok (.num (-(p.1 : Int)), p.2)
          else .error "Unexpected token in JSON"
      else if c = 'n' then
        match cs with
        | 'u' :: 'l' :: 'l' :: rest => .ok (.null, rest)
        | _ => .error "Unexpected token in JSON"
      else if c = 't' then
        match cs with
        | 'r' :: 'u' :: 'e' :: rest => .ok (.bool true, rest)
        | _ => .error "Unexpected token in JSON"
      else if c = 'f' then
        match cs with
        | 'a' :: 'l' :: 's' :: 'e' :: rest => .ok (.bool false, rest)
        | _ => .error "Unexpected token in JSON"
      else if c = '"' then
        match parseStringBody cs with
        | .ok (s, rest) => .ok (.str (String.mk s), rest)
        | .error e => .error e
      else if c = '[' then
        if (skipWs cs).head? = some ']' then .ok (.arr [], (skipWs cs).tail)
        else
          match parseElems fuel (skipWs cs) with
          | .ok (vs, rest) => .ok (.arr vs, rest)
          | .error e => .error e
      else if c = '\x7b' then
        if (skipWs cs).head? = some '\x7d' then .ok (.obj [], (skipWs cs).tail)
        else
          match parseFields fuel (skipWs cs) with
          | .ok (fs, rest) => .ok (.obj fs, rest)
          | .error e => .error e
      else .error "Unexpected token in JSON"

/-- Parse one or more comma-separated array elements and the closing `]`. -/
def parseElems : Nat → List Char → Except String (List Json × List Char)
  | 0, _ => .error "Maximum JSON nesting depth exceeded"
  | fuel + 1, input =>
    match parseValue fuel input with
    | .error e => .error e
    | .ok (v, rest) =>
      match skipWs rest with
      | ',' :: rest1 =>
        match parseElems fuel rest1 with
        | .ok (vs, rest2) => .ok (v :: vs, rest2)
        | .error e => .error e
      | ']' :: rest1 => .ok ([v], rest1)
      | _ => .error "Expected comma or closing bracket in JSON array"

/-- Parse one or more comma-separated object members and the closing brace. -/
def parseFields : Nat → List Char → Except String (List (String × Json) × List Char)
  | 0, _ => .error "Maximum JSON nesting depth exceeded"
  | fuel + 1, input =>
    match skipWs input with
    | '"' :: cs =>
      match parseStringBody cs with
      | .error e => .error e
      | .ok (k, rest) =>
        match skipWs rest with
        | ':' :: rest1 =>
          match parseValue fuel rest1 with
          | .error e => .error e
          | .ok (v, rest2) =>
            match skipWs rest2 with
            | ',' :: rest3 =>
              match parseFields fuel rest3 with
              | .ok (fs, rest4) => .ok ((String.mk k, v) :: fs, rest4)
              | .error e => .error e
            | '\x7d' :: rest3 => .ok ([(String.mk k, v)], rest3)
            | _ => .error "Expected comma or closing brace in JSON object"
        | _ => .error "Expected colon in JSON object"
    | _ => .error "Expected property name in JSON object"

end

/-- `JSON.parse`: parse a complete text, requiring only whitespace after the
value. -/
def JSONparse (text : String) : Except String Json :=
  match parseValue (text.length + 1) text.data with
  | .error e => .error e
  | .ok (v, rest) =>
    match skipWs rest with
    | [] => .ok v
    | _ => .error "Unexpected non-whitespace character after JSON data"

/-- A property of a prototype object: either a data field or a function
(a method; its behaviour is irrelevant to the claims, only its callability). -/
inductive PropVal where
  | data (v : Json) : PropVal
  | fn (body : List Json → Json) : PropVal

/-- Whether a looked-up property is callable. -/
def PropVal.isCallable : PropVal → Bool
  | .data _ => false
  | .fn _ => true

/-- `fromJSON`: `JSON.parse` the text, then associate the parsed value with
`proto` (`Object.setPrototypeOf`), modelled as pairing the value with the
prototype's property list.  A parse failure propagates unchanged. -/
def fromJSON (proto : List (String × PropVal)) (json : String) :
    Except String (Json × List (String × PropVal)) :=
  match JSONparse json with
  | .error e => .error e
  | .ok object => .ok (object, proto)

/-- JavaScript property resolution on a value with an attached prototype:
own fields (of an object value) first, then the prototype's properties. -/
def getProp (o : Json × List (String × PropVal)) (key : String) : Option PropVal :=
  match o.1 with
  | .obj fields =>
    match fields.lookup key with
    | some v => some (.data v)
    | none => o.2.lookup key
  | _ => o.2.lookup key

/-- Own fields of a parsed-and-attached value. -/
def ownFields (o : Json × List (String × PropVal)) : List (String × Json) :=
  match o.1 with
  | .obj fields => fields
  | _ => []

mutual

/-- Fuel measure: an upper bound on the parser fuel consumed by the encoding
of a value. -/
def jsize : Json → Nat
  | .null => 1
  | .bool _ => 1
  | .num _ => 1
  | .str _ => 1
  | .arr xs => 1 + elemsSize xs
  | .obj fs => 1 + fieldsSize fs

/-- Fuel measure for array elements. -/
def elemsSize : List Json → Nat
  | [] => 0
  | x :: xs => 1 + jsize x + elemsSize xs

/-- Fuel measure for object members. -/
def fieldsSize : List (String × Json) → Nat
  | [] => 0
  | (_, v) :: fs => 1 + jsize v + fieldsSize fs

end

/-!
## Theorems
-/

theorem string_empty_append (s : String) : "" ++ s = s := by
  obtain ⟨l⟩ := s
  rfl

theorem string_append_assoc (a b c : String) : a ++ b ++ c = a ++ (b ++ c) := by
  obtain ⟨x⟩ := a
  obtain ⟨y⟩ := b
  obtain ⟨z⟩ := c
  show String.mk (x ++ y ++ z) = String.mk (x ++ (y ++ z))
  rw [List.append_assoc]

theorem append_error_state (b : Builder) (c : Category) (v : String) (b1 : Builder)
    (e : BuilderError) (h : b.append c v = (b1, some e)) : b1 = b := by
  cases c <;>
    simp only [Builder.append, Builder.element, Builder.id, Builder.«class», Builder.attr,
      Builder.pseudoClass, Builder.pseudoElement] at h <;>
    split_ifs at h <;> simp_all

theorem append_ok_string (b : Builder) (c : Category) (v : String) (b1 : Builder)
    (h : b.append c v = (b1, none)) :
    b1.selectorString = b.selectorString ++ Category.render c v := by
  cases c <;>
    simp only [Builder.append, Builder.element, Builder.id, Builder.«class», Builder.attr,
      Builder.pseudoClass, Builder.pseudoElement, Category.render] at h ⊢ <;>
    split_ifs at h <;> (injection h with h1 h2) <;>
    first
    | exact Option.noConfusion h2
    | (subst h1; simp [string_append_assoc])

/-- C4: appending `element`, `id`, or `pseudoElement` when that same category
was already appended raises the duplicate error, whatever other flags are set
(the duplicate check precedes the order check), so
`element('a').id('x').element('b')` raises `DuplicateError`, not `OrderError`. -/
theorem c4_duplicate_beats_order (b : Builder) (c : Category) (v : String)
    (h1 : c.atMostOne = true) (h2 : catSeen b c = true) :
    (b.append c v).2 = some BuilderError.duplicate := by
  cases c <;>
    simp_all [Builder.append, Builder.element, Builder.id, Builder.pseudoElement,
      Category.atMostOne, catSeen]

theorem c4_witness :
    ((cssSelectorBuilder.element "a").1.id "x").2 = none
    ∧ (((cssSelectorBuilder.element "a").1.id "x").1.append .element "b").2
        = some BuilderError.duplicate :=
  ⟨by decide, c4_duplicate_beats_order _ .element "b" (by decide) (by decide)⟩

/-- C5: a `Builder` append that raises an error leaves the builder state
(text buffer and every category flag) exactly as it was before the failing
call; the error is the synchronous result of that call. -/
theorem c5_error_is_atomic (b : Builder) (c : Category) (v : String) (b1 : Builder)
    (e : BuilderError) (h : b.append c v = (b1, some e)) : b1 = b :=
  append_error_state b c v b1 e h

theorem c5_witness :
    (((cssSelectorBuilder.id "x").1).append .element "a").1 = (cssSelectorBuilder.id "x").1 :=
  c5_error_is_atomic _ .element "a" _ BuilderError.order (by decide)

/-- C7: `stringify()` returns the accumulated selector text and clears the
internal buffer, so a second `stringify()` with no intervening appends
returns the empty string. -/
theorem c7_stringify_clears_buffer (b : Builder) :
    b.stringify.1 = b.selectorString ∧ (b.stringify.2).stringify.1 = "" :=
  ⟨rfl, rfl⟩

/-- C6: for any two builders `a`, `b` and combinator `comb`,
`combine(a, comb, b).stringify()` is `a`'s accumulated text, a space, the
combinator, a space, and `b`'s accumulated text; `combine` never raises (its
embedding returns no error, matching the check-free source method); in
particular `combine(element('div').id('main'), '+', element('span'))`
stringifies to `"div#main + span"`. -/
theorem c6_combine_renders :
    (∀ (a : Builder) (comb : String) (b : Builder),
      (cssSelectorBuilder.combine a comb b).stringify.1
        = a.selectorString ++ " " ++ comb ++ " " ++ b.selectorString)
    ∧ (cssSelectorBuilder.element "div").2 = none
    ∧ ((cssSelectorBuilder.element "div").1.id "main").2 = none
    ∧ (cssSelectorBuilder.element "span").2 = none
    ∧ (cssSelectorBuilder.combine ((cssSelectorBuilder.element "div").1.id "main").1 "+"
        (cssSelectorBuilder.element "span").1).stringify.1 = "div#main + span" := by
  refine ⟨fun a comb b => ?_, by decide, by decide, by decide, by decide⟩
  simp only [cssSelectorBuilder.combine, Builder.combine, Builder.stringify, Builder.new]
  rw [string_empty_append]

/-- C3 counterexample: after `element('a').id('x')` a category strictly
earlier than an already-appended one (`element`, with `id` present) is
appended, yet the raised error is the duplicate error, not the order error,
because the duplicate check runs first. -/
theorem c3_counterexample :
    laterSeen ((cssSelectorBuilder.element "a").1.id "x").1 .element = true
    ∧ ((cssSelectorBuilder.element "a").1.id "x").2 = none
    ∧ ((cssSelectorBuilder.element "a").1.id "x").1.element "b"
        = (((cssSelectorBuilder.element "a").1.id "x").1, some BuilderError.duplicate)
    ∧ BuilderError.duplicate ≠ BuilderError.order := by
  refine ⟨by decide, by decide, by decide, by decide⟩

set_option maxHeartbeats 2000000 in
/-- C3 (amended): appending a fragment of a category strictly earlier in the
order than some already-appended category raises an error: `OrderError`,
unless the appended category is an at-most-one category that was itself
already appended, in which case `DuplicateError` is raised instead.  In
particular `id('x').element('a')` raises `OrderError` at the `element` call. -/
theorem c3_earlier_category_errors (b : Builder) (c : Category) (v : String)
    (h : laterSeen b c = true) :
    (b.append c v).2
      = some (if c.atMostOne && catSeen b c then BuilderError.duplicate else BuilderError.order) := by
  rcases b with ⟨s, he, hid, hID, hc, ha, hpc, hpe⟩
  cases c <;> cases he <;> cases hID <;> cases hc <;> cases ha <;> cases hpc <;> cases hpe <;>
    simp_all [Builder.append, Builder.element, Builder.id, Builder.«class», Builder.attr,
      Builder.pseudoClass, Builder.pseudoElement, laterSeen, allCategories, catSeen,
      Category.index, Category.atMostOne]

theorem c3_witness :
    laterSeen (cssSelectorBuilder.id "x").1 .element = true
    ∧ ((cssSelectorBuilder.id "x").1.append .element "a").2
        = some (if Category.atMostOne .element && catSeen (cssSelectorBuilder.id "x").1 .element
                then BuilderError.duplicate else BuilderError.order)
    ∧ ((cssSelectorBuilder.id "x").1.append .element "a").2 = some BuilderError.order :=
  ⟨by decide, c3_earlier_category_errors _ .element "a" (by decide), by decide⟩

/-- C10: in the store model, `cssSelectorBuilder.combine` writes only the
freshly allocated builder cell: the argument cells keep their full state
(text and flags), a later `stringify()` on either argument still returns that
argument's whole accumulated text, and the fresh cell stringifies to the
combined rendering. -/
theorem c10_combine_does_not_mutate_args (store : List Builder) (i j : Nat) (comb : String)
    (hi : i < store.length) (hj : j < store.length) :
    (combineAt store i comb j).1.getD i Builder.new = store.getD i Builder.new
    ∧ (combineAt store i comb j).1.getD j Builder.new = store.getD j Builder.new
    ∧ (stringifyAt (combineAt store i comb j).1 i).1 = (store.getD i Builder.new).selectorString
    ∧ (stringifyAt (combineAt store i comb j).1 j).1 = (store.getD j Builder.new).selectorString
    ∧ (stringifyAt (combineAt store i comb j).1 (combineAt store i comb j).2).1
        = (store.getD i Builder.new).selectorString ++ " " ++ comb ++ " "
          ++ (store.getD j Builder.new).selectorString := by
  have hgi : (store ++ [Builder.new.combine (store.getD i Builder.new) comb
      (store.getD j Builder.new)]).getD i Builder.new = store.getD i Builder.new :=
    List.getD_append _ _ _ _ hi
  have hgj : (store ++ [Builder.new.combine (store.getD i Builder.new) comb
      (store.getD j Builder.new)]).getD j Builder.new = store.getD j Builder.new :=
    List.getD_append _ _ _ _ hj
  have hfresh : (store ++ [Builder.new.combine (store.getD i Builder.new) comb
      (store.getD j Builder.new)]).getD store.length Builder.new
      = Builder.new.combine (store.getD i Builder.new) comb (store.getD j Builder.new) := by
    rw [List.getD_append_right _ _ _ _ (Nat.le_refl _), Nat.sub_self]
    rfl
  refine ⟨hgi, hgj, ?_, ?_, ?_⟩
  · simp only [combineAt, stringifyAt, hgi]
  · simp only [combineAt, stringifyAt, hgj]
  · simp only [combineAt, stringifyAt]
    rw [hfresh]
    simp only [Builder.combine, Builder.new]
    rw [string_empty_append]

theorem c10_witness :
    (combineAt [(cssSelectorBuilder.element "a").1, (cssSelectorBuilder.id "b").1] 0 "+" 1).1.getD 0
        Builder.new
      = [(cssSelectorBuilder.element "a").1, (cssSelectorBuilder.id "b").1].getD 0 Builder.new
    ∧ (combineAt [(cssSelectorBuilder.element "a").1, (cssSelectorBuilder.id "b").1] 0 "+" 1).1.getD 1
        Builder.new
      = [(cssSelectorBuilder.element "a").1, (cssSelectorBuilder.id "b").1].getD 1 Builder.new
    ∧ (stringifyAt (combineAt [(cssSelectorBuilder.element "a").1,
        (cssSelectorBuilder.id "b").1] 0 "+" 1).1 0).1
      = ([(cssSelectorBuilder.element "a").1, (cssSelectorBuilder.id "b").1].getD 0
          Builder.new).selectorString
    ∧ (stringifyAt (combineAt [(cssSelectorBuilder.element "a").1,
        (cssSelectorBuilder.id "b").1] 0 "+" 1).1 1).1
      = ([(cssSelectorBuilder.element "a").1, (cssSelectorBuilder.id "b").1].getD 1
          Builder.new).selectorString
    ∧ (stringifyAt (combineAt [(cssSelectorBuilder.element "a").1,
        (cssSelectorBuilder.id "b").1] 0 "+" 1).1
        (combineAt [(cssSelectorBuilder.element "a").1, (cssSelectorBuilder.id "b").1] 0 "+" 1).2).1
      = ([(cssSelectorBuilder.element "a").1, (cssSelectorBuilder.id "b").1].getD 0
          Builder.new).selectorString ++ " " ++ "+" ++ " "
        ++ ([(cssSelectorBuilder.element "a").1, (cssSelectorBuilder.id "b").1].getD 1
            Builder.new).selectorString :=
  c10_combine_does_not_mutate_args _ 0 1 "+" (by decide) (by decide)

theorem string_append_empty (s : String) : s ++ "" = s := by
  obtain ⟨l⟩ := s
  show String.mk (l ++ []) = String.mk l
  rw [List.append_nil]

set_option maxHeartbeats 4000000 in
theorem append_abs_step (b : Builder) (c : Category) (v : String) :
    ((b.append c v).2 = none ↔ (specStep (absState b) c).isSome = true)
    ∧ ((b.append c v).2 = none → specStep (absState b) c = some (absState (b.append c v).1)) := by
  rcases b with ⟨s, he, hid, hID, hc, ha, hpc, hpe⟩
  cases c <;> cases he <;> cases hID <;> cases hc <;> cases ha <;> cases hpc <;> cases hpe <;>
    constructor <;>
    simp [Builder.append, Builder.element, Builder.id, Builder.«class», Builder.attr,
      Builder.pseudoClass, Builder.pseudoElement, specStep, absState, flagWatermark,
      SpecState.seen, Category.index, Category.atMostOne]

theorem run_abs (ops : List (Category × String)) : ∀ b : Builder,
    ((runBuilder b ops).2 = none ↔ (runSpec (absState b) (ops.map Prod.fst)).isSome = true) := by
  induction ops with
  | nil => intro b; simp [runBuilder, runSpec]
  | cons p rest ih =>
    intro b
    obtain ⟨c, v⟩ := p
    have hstep := append_abs_step b c v
    rcases happ : b.append c v with ⟨b1, e⟩
    cases e with
    | none =>
      have h2 : specStep (absState b) c = some (absState b1) := by
        have h3 := hstep.2
        rw [happ] at h3
        exact h3 rfl
      simp only [runBuilder, happ, List.map_cons, runSpec, h2]
      exact ih b1
    | some err =>
      have h1 : ¬(specStep (absState b) c).isSome = true := by
        rw [← hstep.1, happ]
        simp
      have h2 : specStep (absState b) c = none := by
        cases hs : specStep (absState b) c with
        | none => rfl
        | some s1 => rw [hs] at h1; simp at h1
      simp only [runBuilder, happ, List.map_cons, runSpec, h2]
      simp

/-- C1: over every sequence of appends, the flag-based `Builder` accepts
exactly when the spec's watermark state machine accepts: an append of
category `C` succeeds iff no strictly later category has been appended
(watermark check) and, for the at-most-one categories `element`, `id`,
`pseudoElement`, `C` itself has not been appended; repeated `class`,
`attribute`, `pseudoClass` appends succeed. -/
theorem c1_builder_equiv_watermark_machine (ops : List (Category × String)) :
    (runBuilder Builder.new ops).2 = none
      ↔ (runSpec SpecState.init (ops.map Prod.fst)).isSome = true := by
  have h := run_abs ops Builder.new
  have habs : absState Builder.new = SpecState.init := rfl
  rwa [habs] at h

theorem run_ok_string (ops : List (Category × String)) : ∀ b b1 : Builder,
    runBuilder b ops = (b1, none) →
    b1.selectorString = b.selectorString ++ renderAll ops := by
  induction ops with
  | nil =>
    intro b b1 h
    simp only [runBuilder] at h
    injection h with h1 h2
    subst h1
    exact (string_append_empty b.selectorString).symm
  | cons p rest ih =>
    intro b b1 h
    obtain ⟨c, v⟩ := p
    rcases happ : b.append c v with ⟨b2, e⟩
    cases e with
    | none =>
      simp only [runBuilder, happ] at h
      have hs := append_ok_string b c v b2 happ
      have hrec := ih b2 b1 h
      rw [hrec, hs, string_append_assoc]
      rfl
    | some err =>
      simp only [runBuilder, happ] at h
      injection h with h1 h2
      exact Option.noConfusion h2

/-- C2: for every accepted sequence of appends from a fresh builder,
`stringify()` returns exactly the concatenation, in append order with no
separators, of the fragments' renderings (`v`, `#v`, `.v`, `[v]`, `:v`,
`::v`). -/
theorem c2_stringify_concatenates (ops : List (Category × String)) (b1 : Builder)
    (h : runBuilder Builder.new ops = (b1, none)) :
    b1.stringify.1 = renderAll ops := by
  have hrun := run_ok_string ops Builder.new b1 h
  have : b1.stringify.1 = b1.selectorString := rfl
  rw [this, hrun]
  exact string_empty_append _

theorem c2_witness :
    runBuilder Builder.new [(Category.«class», "c1"), (Category.«class», "c2")]
      = ((runBuilder Builder.new [(Category.«class», "c1"), (Category.«class», "c2")]).1, none)
    ∧ (runBuilder Builder.new [(Category.«class», "c1"), (Category.«class», "c2")]).1.stringify.1
        = renderAll [(Category.«class», "c1"), (Category.«class», "c2")]
    ∧ renderAll [(Category.«class», "c1"), (Category.«class», "c2")] = ".c1.c2" :=
  ⟨by decide, c2_stringify_concatenates _ _ (by decide), by decide⟩

theorem digit_char_facts : ∀ n < 10,
    (Char.ofNat (48 + n)).isDigit = true ∧ (Char.ofNat (48 + n)).toNat = 48 + n := by
  decide

theorem natDigitsWF_all_digits (n : Nat) : ∀ c ∈ natDigitsWF n, c.isDigit = true := by
  induction n using Nat.strong_induction_on with
  | _ n ih =>
    rw [natDigitsWF]
    split_ifs with h
    · intro c hc
      simp only [List.mem_singleton] at hc
      subst hc
      exact (digit_char_facts n h).1
    · intro c hc
      rw [List.mem_append] at hc
      rcases hc with hc | hc
      · exact ih (n / 10) (by omega) c hc
      · simp only [List.mem_singleton] at hc
        subst hc
        exact (digit_char_facts (n % 10) (by omega)).1

theorem natDigitsWF_ne_nil (n : Nat) : natDigitsWF n ≠ [] := by
  rw [natDigitsWF]
  split_ifs with h
  · simp
  · simp

theorem natDigitsGo_eq : ∀ (fuel n : Nat) (acc : List Char), n ≤ fuel →
    natDigitsGo fuel n acc = natDigitsWF n ++ acc := by
  intro fuel
  induction fuel with
  | zero =>
    intro n acc hn
    obtain rfl : n = 0 := by omega
    rw [natDigitsWF]
    simp [natDigitsGo]
  | succ f ih =>
    intro n acc hn
    rw [natDigitsGo, natDigitsWF]
    split_ifs with h
    · simp
    · rw [ih (n / 10) _ (by omega)]
      simp [List.append_assoc]

theorem natDigits_eq_WF (n : Nat) : natDigits n = natDigitsWF n := by
  show natDigitsGo n n [] = natDigitsWF n
  rw [natDigitsGo_eq n n [] (Nat.le_refl n), List.append_nil]

theorem natDigits_all_digits (n : Nat) : ∀ c ∈ natDigits n, c.isDigit = true := by
  rw [natDigits_eq_WF]
  exact natDigitsWF_all_digits n

theorem natDigits_ne_nil (n : Nat) : natDigits n ≠ [] := by
  rw [natDigits_eq_WF]
  exact natDigitsWF_ne_nil n

theorem parseNatAux_digits (n : Nat) : ∀ acc : Nat, ∀ rest : List Char,
    parseNatAux (natDigitsWF n ++ rest) acc
      = parseNatAux rest (acc * 10 ^ (natDigitsWF n).length + n) := by
  induction n using Nat.strong_induction_on with
  | _ n ih =>
    intro acc rest
    rw [natDigitsWF]
    split_ifs with h
    · simp only [List.singleton_append, List.length_singleton, parseNatAux,
        (digit_char_facts n h).1, if_true, (digit_char_facts n h).2, pow_one]
      congr 1
      omega
    · rw [List.append_assoc, List.singleton_append, ih (n / 10) (by omega)]
      simp only [parseNatAux, (digit_char_facts (n % 10) (by omega)).1, if_true,
        (digit_char_facts (n % 10) (by omega)).2, List.length_append, List.length_singleton]
      congr 1
      have hsub : 48 + n % 10 - 48 = n % 10 := by omega
      have hdm : n / 10 * 10 + n % 10 = n := by omega
      have hstep : (acc * 10 ^ (natDigitsWF (n / 10)).length + n / 10) * 10 + n % 10
          = acc * (10 ^ (natDigitsWF (n / 10)).length * 10) + (n / 10 * 10 + n % 10) := by ring
      rw [hsub, pow_succ, hstep, hdm]

theorem parseNatAux_stop (rest : List Char) (acc : Nat)
    (h : ∀ c, rest.head? = some c → c.isDigit = false) :
    parseNatAux rest acc = (acc, rest) := by
  cases rest with
  | nil => rfl
  | cons c cs => simp [parseNatAux, h c rfl]

theorem parseNatAux_encode (n : Nat) (rest : List Char)
    (h : ∀ c, rest.head? = some c → c.isDigit = false) :
    parseNatAux (natDigits n ++ rest) 0 = (n, rest) := by
  rw [natDigits_eq_WF, parseNatAux_digits, parseNatAux_stop rest _ h]
  simp

theorem isDigit_special_facts (c : Char) (h : c.isDigit = true) :
    (c = ' ' || c = '\n' || c = '\r' || c = '\t') = false ∧ c ≠ ']' ∧ c ≠ '\x7d' := by
  have h1 : c ≠ ' ' := fun hc => absurd (hc ▸ h) (by decide)
  have h2 : c ≠ '\n' := fun hc => absurd (hc ▸ h) (by decide)
  have h3 : c ≠ '\r' := fun hc => absurd (hc ▸ h) (by decide)
  have h4 : c ≠ '\t' := fun hc => absurd (hc ▸ h) (by decide)
  have h5 : c ≠ ']' := fun hc => absurd (hc ▸ h) (by decide)
  have h6 : c ≠ '\x7d' := fun hc => absurd (hc ▸ h) (by decide)
  exact ⟨by simp [h1, h2, h3, h4], h5, h6⟩

theorem parseHex_hexDigitChar : ∀ k < 16, parseHex (hexDigitChar k) = some k := by
  decide

theorem parseStringBody_encode (s : List Char) : ∀ rest : List Char,
    parseStringBody (encodeString s ++ '"' :: rest) = .ok (s, rest) := by
  induction s with
  | nil =>
    intro rest
    rw [encodeString, List.nil_append, parseStringBody.eq_def]
    simp
  | cons c cs ih =>
    intro rest
    simp only [encodeString, List.append_assoc]
    by_cases h1 : c = '"'
    · subst h1
      rw [parseStringBody.eq_def]
      simp [encodeChar, escChar, ih]
    · by_cases h2 : c = '\\'
      · subst h2
        rw [parseStringBody.eq_def]
        simp [encodeChar, escChar, ih]
      · by_cases h3 : c = Char.ofNat 8
        · subst h3
          rw [parseStringBody.eq_def]
          simp [encodeChar, escChar, ih]
        · by_cases h4 : c = Char.ofNat 12
          · subst h4
            rw [parseStringBody.eq_def]
            simp [encodeChar, escChar, ih]
          · by_cases h5 : c = Char.ofNat 10
            · subst h5
              rw [parseStringBody.eq_def]
              simp [encodeChar, escChar, ih]
            · by_cases h6 : c = Char.ofNat 13
              · subst h6
                rw [parseStringBody.eq_def]
                simp [encodeChar, escChar, ih]
              · by_cases h7 : c = Char.ofNat 9
                · subst h7
                  rw [parseStringBody.eq_def]
                  simp [encodeChar, escChar, ih]
                · by_cases h8 : c.toNat < 32
                  · have ha := parseHex_hexDigitChar (c.toNat / 16) (by omega)
                    have hb := parseHex_hexDigitChar (c.toNat % 16) (by omega)
                    simp only [encodeChar, if_neg h1, if_neg h2, if_neg h3, if_neg h4, if_neg h5,
                      if_neg h6, if_neg h7, if_pos h8, List.cons_append, List.nil_append]
                    have h0 : parseHex '0' = some 0 := by decide
                    rw [parseStringBody.eq_def]
                    simp [h0, ha, hb, ih]
                    have hc : c.toNat / 16 * 16 + c.toNat % 16 = c.toNat := by omega
                    simp [hc, Char.ofNat_toNat]
                  · simp only [encodeChar, if_neg h1, if_neg h2, if_neg h3, if_neg h4, if_neg h5,
                      if_neg h6, if_neg h7, if_neg h8, List.cons_append, List.nil_append]
                    rw [parseStringBody.eq_def]
                    simp [h1, h2, ih]

theorem jsize_pos (v : Json) : 1 ≤ jsize v := by
  cases v <;> simp [jsize]

theorem encode_head (v : Json) : ∃ c cs, encode v = c :: cs
    ∧ (∀ t : List Char, skipWs (c :: t) = c :: t) ∧ c ≠ ']' ∧ c ≠ '\x7d' := by
  cases v with
  | null =>
    exact ⟨'n', ['u', 'l', 'l'], by simp [encode, litChars], fun t => by simp [skipWs], by decide,
      by decide⟩
  | bool b =>
    cases b with
    | true =>
      exact ⟨'t', ['r', 'u', 'e'], by simp [encode, litChars], fun t => by simp [skipWs],
        by decide, by decide⟩
    | false =>
      exact ⟨'f', ['a', 'l', 's', 'e'], by simp [encode, litChars], fun t => by simp [skipWs],
        by decide, by decide⟩
  | num n =>
    by_cases h : n < 0
    · exact ⟨'-', natDigits n.natAbs, by simp [encode, intChars, h], fun t => by simp [skipWs],
        by decide, by decide⟩
    · cases hnd : natDigits n.natAbs with
      | nil => exact absurd hnd (natDigits_ne_nil _)
      | cons d ds =>
        have hd : d.isDigit = true := by
          refine natDigits_all_digits n.natAbs d ?_
          rw [hnd]
          exact List.mem_cons_self _ _
        obtain ⟨hws, hbr, hbrace⟩ := isDigit_special_facts d hd
        refine ⟨d, ds, ?_, fun t => by simp [skipWs, hws], hbr, hbrace⟩
        simp [encode, intChars, h, hnd]
  | str s =>
    exact ⟨'"', encodeString s.data ++ ['"'], by simp [encode], fun t => by simp [skipWs],
      by decide, by decide⟩
  | arr xs =>
    exact ⟨'[', encodeElems xs ++ [']'], by simp [encode], fun t => by simp [skipWs],
      by decide, by decide⟩
  | obj fs =>
    exact ⟨'\x7b', encodeFields fs ++ ['\x7d'], by simp [encode], fun t => by simp [skipWs],
      by decide, by decide⟩

theorem head_cons_not_digit (a : Char) (l : List Char) (ha : a.isDigit = false) :
    ∀ c, (a :: l).head? = some c → c.isDigit = false := by
  intro c hc
  simp only [List.head?, Option.some.injEq] at hc
  rw [← hc]
  exact ha

theorem skipWs_not_ws (c : Char) (t : List Char)
    (h : (c = ' ' || c = '\n' || c = '\r' || c = '\t') = false) : skipWs (c :: t) = c :: t := by
  simp only [skipWs, h]
  simp at h
  simp [h]

mutual

theorem parseValue_encode (v : Json) (fuel : Nat) (rest : List Char)
    (hfuel : jsize v ≤ fuel) (hrest : ∀ c, rest.head? = some c → c.isDigit = false) :
    parseValue fuel (encode v ++ rest) = .ok (v, rest) := by
  obtain ⟨f, rfl⟩ : ∃ f, fuel = f + 1 := ⟨fuel - 1, by have := jsize_pos v; omega⟩
  cases v with
  | null =>
    rw [parseValue.eq_def]
    simp [encode, litChars, skipWs, Char.isDigit]
  | bool b =>
    cases b with
    | true =>
      rw [parseValue.eq_def]
      simp [encode, litChars, skipWs, Char.isDigit]
    | false =>
      rw [parseValue.eq_def]
      simp [encode, litChars, skipWs, Char.isDigit]
  | num n =>
    by_cases hneg : n < 0
    · cases hnd : natDigits n.natAbs with
      | nil => exact absurd hnd (natDigits_ne_nil _)
      | cons d ds =>
        have hd : d.isDigit = true := by
          refine natDigits_all_digits n.natAbs d ?_
          rw [hnd]
          exact List.mem_cons_self _ _
        have hpn : parseNatAux (natDigits n.natAbs ++ rest) 0 = (n.natAbs, rest) :=
          parseNatAux_encode _ _ hrest
        have hval : -((n.natAbs : Int)) = n := by omega
        have hdash : ('-').isDigit = false := by decide
        rw [parseValue.eq_def]
        simp only [encode, intChars, if_pos hneg, List.cons_append]
        rw [hnd] at hpn ⊢
        simp only [List.cons_append] at hpn
        simp [skipWs, hdash, hd, hpn]
        rw [Int.abs_eq_natAbs]
        omega
    · cases hnd : natDigits n.natAbs with
      | nil => exact absurd hnd (natDigits_ne_nil _)
      | cons d ds =>
        have hd : d.isDigit = true := by
          refine natDigits_all_digits n.natAbs d ?_
          rw [hnd]
          exact List.mem_cons_self _ _
        obtain ⟨hws, hbr, hbrace⟩ := isDigit_special_facts d hd
        have hpn : parseNatAux (natDigits n.natAbs ++ rest) 0 = (n.natAbs, rest) :=
          parseNatAux_encode _ _ hrest
        have hval : ((n.natAbs : Int)) = n := by omega
        rw [parseValue.eq_def]
        simp only [encode, intChars, if_neg hneg]
        rw [hnd] at hpn ⊢
        simp only [List.cons_append] at hpn
        simp [skipWs, hws, hd, hpn, hval]
  | str s =>
    rw [parseValue.eq_def]
    simp only [encode, List.cons_append, List.append_assoc, List.singleton_append]
    simp [skipWs, Char.isDigit, parseStringBody_encode]
  | arr xs =>
    cases xs with
    | nil =>
      rw [parseValue.eq_def]
      simp [encode, encodeElems, skipWs, Char.isDigit]
    | cons x xs2 =>
      have hfe : elemsSize (x :: xs2) ≤ f := by
        simp only [jsize] at hfuel
        omega
      obtain ⟨c, cs, hx, hcws, hbr, hbrace⟩ := encode_head x
      obtain ⟨t, ht⟩ : ∃ t, encodeElems (x :: xs2) = encode x ++ t := by
        cases xs2 with
        | nil => exact ⟨[], by simp [encodeElems]⟩
        | cons y ys => exact ⟨',' :: encodeElems (y :: ys), by simp [encodeElems]⟩
      have hinput : encodeElems (x :: xs2) ++ ']' :: rest = c :: (cs ++ (t ++ ']' :: rest)) := by
        rw [ht, hx]
        simp [List.append_assoc]
      have hparse : parseElems f (c :: (cs ++ (t ++ ']' :: rest))) = .ok (x :: xs2, rest) := by
        rw [← hinput]
        exact parseElems_encode (x :: xs2) f rest (by simp) hfe
      rw [parseValue.eq_def]
      simp only [encode, List.cons_append, List.append_assoc, List.singleton_append,
        List.nil_append]
      rw [hinput]
      simp [skipWs_not_ws, Char.isDigit, hcws, hbr, hparse]
  | obj fs =>
    cases fs with
    | nil =>
      rw [parseValue.eq_def]
      simp [encode, encodeFields, skipWs, Char.isDigit]
    | cons kv fs2 =>
      obtain ⟨k, vv⟩ := kv
      have hff : fieldsSize ((k, vv) :: fs2) ≤ f := by
        simp only [jsize] at hfuel
        omega
      obtain ⟨t, ht⟩ : ∃ t, encodeFields ((k, vv) :: fs2) = encodeField k vv ++ t := by
        cases fs2 with
        | nil => exact ⟨[], by simp [encodeFields, encodeField]⟩
        | cons kv2 fs3 =>
          exact ⟨',' :: encodeFields (kv2 :: fs3), by simp [encodeFields, encodeField]⟩
      have hinput : encodeFields ((k, vv) :: fs2) ++ '\x7d' :: rest
          = '"' :: (encodeString k.data ++ '"' :: ':' :: (encode vv ++ (t ++ '\x7d' :: rest))) := by
        rw [ht]
        simp [encodeField, List.append_assoc]
      have hparse : parseFields f
          ('"' :: (encodeString k.data ++ '"' :: ':' :: (encode vv ++ (t ++ '\x7d' :: rest))))
          = .ok ((k, vv) :: fs2, rest) := by
        rw [← hinput]
        exact parseFields_encode ((k, vv) :: fs2) f rest (by simp) hff
      rw [parseValue.eq_def]
      simp only [encode, List.cons_append, List.append_assoc, List.singleton_append,
        List.nil_append]
      rw [hinput]
      simp [skipWs_not_ws, Char.isDigit, hparse]

theorem parseElems_encode (xs : List Json) (fuel : Nat) (rest : List Char)
    (hne : xs ≠ []) (hfuel : elemsSize xs ≤ fuel) :
    parseElems fuel (encodeElems xs ++ ']' :: rest) = .ok (xs, rest) := by
  cases xs with
  | nil => exact absurd rfl hne
  | cons x xs2 =>
    obtain ⟨f, rfl⟩ : ∃ f, fuel = f + 1 := ⟨fuel - 1, by simp [elemsSize] at hfuel; omega⟩
    have hfx : jsize x ≤ f := by
      simp only [elemsSize] at hfuel
      omega
    cases xs2 with
    | nil =>
      have hv := parseValue_encode x f (']' :: rest) hfx
        (head_cons_not_digit ']' rest (by decide))
      rw [parseElems.eq_def]
      simp only [encodeElems, List.append_assoc]
      simp [hv, skipWs]
    | cons y ys =>
      have hv := parseValue_encode x f (',' :: (encodeElems (y :: ys) ++ ']' :: rest)) hfx
        (head_cons_not_digit ',' _ (by decide))
      have hrec : parseElems f (encodeElems (y :: ys) ++ ']' :: rest) = .ok (y :: ys, rest) := by
        refine parseElems_encode (y :: ys) f rest (by simp) ?_
        simp only [elemsSize] at hfuel ⊢
        omega
      rw [parseElems.eq_def]
      simp only [encodeElems, List.cons_append, List.append_assoc, List.singleton_append]
      simp [hv, skipWs, hrec]

theorem parseFields_encode (fls : List (String × Json)) (fuel : Nat) (rest : List Char)
    (hne : fls ≠ []) (hfuel : fieldsSize fls ≤ fuel) :
    parseFields fuel (encodeFields fls ++ '\x7d' :: rest) = .ok (fls, rest) := by
  cases fls with
  | nil => exact absurd rfl hne
  | cons kv fls2 =>
    obtain ⟨k, vv⟩ := kv
    obtain ⟨f, rfl⟩ : ∃ f, fuel = f + 1 := ⟨fuel - 1, by simp [fieldsSize] at hfuel; omega⟩
    have hfv : jsize vv ≤ f := by
      simp only [fieldsSize] at hfuel
      omega
    cases fls2 with
    | nil =>
      have hv := parseValue_encode vv f ('\x7d' :: rest) hfv
        (head_cons_not_digit '\x7d' rest (by decide))
      rw [parseFields.eq_def]
      simp only [encodeFields, encodeField, List.cons_append, List.append_assoc,
        List.singleton_append, List.nil_append]
      simp [skipWs, parseStringBody_encode, hv]
    | cons kv2 fls3 =>
      have hv := parseValue_encode vv f (',' :: (encodeFields (kv2 :: fls3) ++ '\x7d' :: rest))
        hfv (head_cons_not_digit ',' _ (by decide))
      have hrec : parseFields f (encodeFields (kv2 :: fls3) ++ '\x7d' :: rest)
          = .ok (kv2 :: fls3, rest) := by
        refine parseFields_encode (kv2 :: fls3) f rest (by simp) ?_
        simp only [fieldsSize] at hfuel ⊢
        omega
      rw [parseFields.eq_def]
      simp only [encodeFields, encodeField, List.cons_append, List.append_assoc,
        List.singleton_append, List.nil_append]
      simp [skipWs, parseStringBody_encode, hv, hrec]

end

mutual

theorem jsize_le_encode (v : Json) : jsize v ≤ (encode v).length := by
  cases v with
  | null => simp [jsize, encode, litChars]
  | bool b => cases b <;> simp [jsize, encode, litChars]
  | num n =>
    have h1 : natDigits n.natAbs ≠ [] := natDigits_ne_nil n.natAbs
    have h2 : 1 ≤ (natDigits n.natAbs).length := by
      cases hnd : natDigits n.natAbs with
      | nil => exact absurd hnd h1
      | cons d ds => simp
    simp only [jsize, encode, intChars]
    split_ifs with h
    · simp only [List.length_cons]
      omega
    · omega
  | str s => simp [jsize, encode]
  | arr xs =>
    have h := elemsSize_le_encode xs
    simp only [jsize, encode, List.length_cons, List.length_append, List.length_singleton]
    omega
  | obj fs =>
    have h := fieldsSize_le_encode fs
    simp only [jsize, encode, List.length_cons, List.length_append, List.length_singleton]
    omega

theorem elemsSize_le_encode (xs : List Json) : elemsSize xs ≤ (encodeElems xs).length + 1 := by
  cases xs with
  | nil => simp [elemsSize, encodeElems]
  | cons x xs2 =>
    cases xs2 with
    | nil =>
      have h := jsize_le_encode x
      simp only [elemsSize, encodeElems, List.length_nil]
      omega
    | cons y ys =>
      have h1 := jsize_le_encode x
      have h2 := elemsSize_le_encode (y :: ys)
      simp only [elemsSize] at h2
      simp only [elemsSize, encodeElems, List.length_append, List.length_cons]
      omega

theorem fieldsSize_le_encode (fs : List (String × Json)) :
    fieldsSize fs ≤ (encodeFields fs).length + 1 := by
  cases fs with
  | nil => simp [fieldsSize, encodeFields]
  | cons kv fs2 =>
    obtain ⟨k, vv⟩ := kv
    cases fs2 with
    | nil =>
      have h := jsize_le_encode vv
      simp only [fieldsSize, encodeFields, List.length_cons, List.length_append]
      omega
    | cons kv2 fs3 =>
      have h1 := jsize_le_encode vv
      have h2 := fieldsSize_le_encode (kv2 :: fs3)
      simp only [fieldsSize] at h2
      simp only [fieldsSize, encodeFields, List.length_cons, List.length_append]
      omega

end

theorem JSONparse_getJSON (v : Json) : JSONparse (getJSON v) = .ok v := by
  have hp := parseValue_encode v ((getJSON v).length + 1) []
    (by
      have h1 := jsize_le_encode v
      have h2 : (getJSON v).length = (encode v).length := rfl
      omega)
    (by intro c hc; simp at hc)
  rw [List.append_nil] at hp
  unfold JSONparse
  have hdata : (getJSON v).data = encode v := rfl
  rw [hdata, hp]
  simp [skipWs]

/-- C8 counterexample: for the object `getArea: 5` and a prototype with a
`getArea` method, `fromJSON(proto, getJSON(obj))` round-trips the fields, the
prototype does carry the method, yet the resolved `getArea` property is the
own parsed field and is not callable — so "every method of proto is callable"
fails when an own field shadows a method. -/
theorem c8_counterexample :
    fromJSON [("getArea", PropVal.fn (fun _ => Json.null))]
        (getJSON (Json.obj [("getArea", Json.num 5)]))
      = .ok (Json.obj [("getArea", Json.num 5)], [("getArea", PropVal.fn (fun _ => Json.null))])
    ∧ [("getArea", PropVal.fn (fun _ => Json.null))].lookup "getArea"
        = some (PropVal.fn (fun _ => Json.null))
    ∧ (getProp (Json.obj [("getArea", Json.num 5)],
          [("getArea", PropVal.fn (fun _ => Json.null))]) "getArea").map PropVal.isCallable
        = some false :=
  ⟨rfl, rfl, rfl⟩

/-- C8 (amended): for every plain object and capability set,
`fromJSON(proto, getJSON(obj))` yields the value with exactly `obj`'s own
fields and `proto` attached; own parsed fields take precedence over
same-named prototype properties; non-shadowed prototype properties resolve
unchanged, so every method of `proto` whose name is not shadowed by an own
field is callable. -/
theorem c8_roundtrip_and_lookup (fields : List (String × Json))
    (proto : List (String × PropVal)) :
    fromJSON proto (getJSON (Json.obj fields)) = .ok (Json.obj fields, proto)
    ∧ ownFields (Json.obj fields, proto) = fields
    ∧ (∀ k v, fields.lookup k = some v →
        getProp (Json.obj fields, proto) k = some (.data v))
    ∧ (∀ k, fields.lookup k = none → getProp (Json.obj fields, proto) k = proto.lookup k)
    ∧ (∀ k f, fields.lookup k = none → proto.lookup k = some (.fn f) →
        (getProp (Json.obj fields, proto) k).map PropVal.isCallable = some true) := by
  refine ⟨?_, rfl, ?_, ?_, ?_⟩
  · unfold fromJSON
    rw [JSONparse_getJSON]
  · intro k v h
    simp [getProp, h]
  · intro k h
    simp [getProp, h]
  · intro k f h1 h2
    simp [getProp, h1, h2, PropVal.isCallable]

theorem c8_witness :
    fromJSON [("getArea", PropVal.fn (fun _ => Json.null))]
        (getJSON (Json.obj [("height", Json.num 20), ("width", Json.num 10)]))
      = .ok (Json.obj [("height", Json.num 20), ("width", Json.num 10)],
          [("getArea", PropVal.fn (fun _ => Json.null))])
    ∧ getProp (Json.obj [("height", Json.num 20), ("width", Json.num 10)],
          [("getArea", PropVal.fn (fun _ => Json.null))]) "height"
        = some (.data (Json.num 20))
    ∧ (getProp (Json.obj [("height", Json.num 20), ("width", Json.num 10)],
          [("getArea", PropVal.fn (fun _ => Json.null))]) "getArea").map PropVal.isCallable
        = some true :=
  ⟨(c8_roundtrip_and_lookup [("height", Json.num 20), ("width", Json.num 10)]
      [("getArea", PropVal.fn (fun _ => Json.null))]).1,
   (c8_roundtrip_and_lookup [("height", Json.num 20), ("width", Json.num 10)]
      [("getArea", PropVal.fn (fun _ => Json.null))]).2.2.1 "height" (Json.num 20) rfl,
   (c8_roundtrip_and_lookup [("height", Json.num 20), ("width", Json.num 10)]
      [("getArea", PropVal.fn (fun _ => Json.null))]).2.2.2.2 "getArea" (fun _ => Json.null)
      rfl rfl⟩

/-- C9: whenever the underlying JSON parser rejects a text, `fromJSON`
fails with exactly that parse error, unchanged, and returns no value. -/
theorem c9_parse_error_propagates (proto : List (String × PropVal)) (text : String)
    (e : String) (h : JSONparse text = .error e) : fromJSON proto text = .error e := by
  unfold fromJSON
  rw [h]

theorem c9_witness :
    fromJSON [("getArea", PropVal.fn (fun _ => Json.null))] "\x7bnot valid json"
      = .error "Expected property name in JSON object" :=
  c9_parse_error_propagates [("getArea", PropVal.fn (fun _ => Json.null))]
    "\x7bnot valid json" "Expected property name in JSON object" rfl
